import Mathlib

/-!
Shallow embedding of `src/main.rs` of the `retaining_date` repository.

The program captures file timestamps of a directory into a SQLite store
(`save_dirs_props`) and restores modification times from the most recent
capture (`apply_dirs_props`).

Modelling conventions:
* `DateTime<Local>` values are modelled as `Int` (a totally ordered timestamp).
* Paths (`PathBuf`) are modelled as `List String` (path components);
  `dir.join(name)` is `dir ++ [name]`.
* SQLite rowids are modelled by monotone counters `next_dir_id` /
  `next_file_id` in the store state.
* Fallible OS calls are modelled with `Except Unit`: a directory listing is
  `Except Unit (List (Except Unit Entry))` mirroring
  `read_dir()? : io::Result<Iterator<Item = io::Result<DirEntry>>>`, and each
  entry carries the results of `file_type()`, `file_name().to_str()` and
  `metadata()` (whose `created()` / `modified()` accessors may themselves fail).
* `OpenOptions::open` and `File::set_modified` on an existing regular file are
  modelled as succeeding.
* The restore path additionally records an event trace (transaction begin /
  queries / file writes / commit) so ordering properties can be stated.
-/

/-- Row of `dir_props(id PK, path TEXT UNIQUE)`. -/
structure DirPropRow where
  id : Int
  path : List String
deriving Repr, DecidableEq

/-- Row of `dir_file_props(id PK, dir_id, name, cached_date, created_date, modified_date)`. -/
structure FilePropRow where
  id : Int
  dir_id : Int
  name : String
  cached_date : Int
  created_date : Int
  modified_date : Int
deriving Repr, DecidableEq

/-- Row of `dir_actions_log(dir_id, action_type, cached_date)`. -/
structure LogRow where
  dir_id : Int
  action_type : Nat
  cached_date : Int
deriving Repr, DecidableEq

/-- The SQLite database state. -/
structure Store where
  dir_props : List DirPropRow
  dir_file_props : List FilePropRow
  dir_actions_log : List LogRow
  next_dir_id : Int
  next_file_id : Int
deriving Repr, DecidableEq

/-- A fresh database (SQLite rowids start at 1). -/
def initStore : Store := ⟨[], [], [], 1, 1⟩

/-- `enum LogActionType { CacheDates }`. -/
inductive LogActionType where
  | CacheDates
deriving Repr, DecidableEq

/-- `impl From<LogActionType> for u8`. -/
def LogActionType.toU8 : LogActionType → Nat
  | .CacheDates => 0

/-- `impl From<u8> for LogActionType`; the `_ => unreachable!()` panic arm is
modelled as `none`. -/
def LogActionType.fromU8 : Nat → Option LogActionType
  | 0 => some .CacheDates
  | _ => none

/-- Error outcomes surfaced by the two operations (`anyhow` errors in the
source): missing directory (`bail!`), `OsString`/`PathBuf` to `&str`
conversion failure (`anyhow!`), and propagated I/O errors (`?`). -/
inductive Err where
  | dirNotFound
  | nameEncoding
  | ioErr
deriving Repr, DecidableEq

/-- `get_dir_prop_row_id`: look up the rowid for a path in `dir_props`
(`SELECT id FROM dir_props WHERE path = $1 LIMIT 1`), inserting a new row on
`RowNotFound` and returning `last_insert_rowid()`.  Runs in its own committed
transaction, so the returned store is the post-commit state. -/
def get_dir_prop_row_id (s : Store) (dir : List String) : Int × Store :=
  match s.dir_props.find? (fun r => r.path == dir) with
  | some r => (r.id, s)
  | none =>
      (s.next_dir_id,
       { s with
          dir_props := s.dir_props ++ [⟨s.next_dir_id, dir⟩],
          next_dir_id := s.next_dir_id + 1 })

deriving instance DecidableEq for Except

/-- Result of `metadata()`: the `created()` and `modified()` accessors each
return an `io::Result<SystemTime>`. -/
structure Meta where
  created : Except Unit Int
  modified : Except Unit Int
deriving Repr, DecidableEq

/-- A directory entry as `save_dirs_props` consumes it: the result of
`entry.file_type()` (`is_file` on success), the result of
`entry.file_name().to_str()` (`none` when the name is not UTF-8), and the
result of `entry.metadata()`. -/
structure Entry where
  file_type : Except Unit Bool
  name : Option String
  metadata : Except Unit Meta
deriving Repr, DecidableEq

/-- The per-file upsert of `save_dirs_props`:
`SELECT id FROM dir_file_props WHERE dir_id = $1 AND name = $2 LIMIT 1`;
on success `UPDATE dir_file_props SET cached_date, created_date, modified_date
WHERE id = $1`, on `RowNotFound` `INSERT` a new row. -/
def upsertFileProp (s : Store) (did : Int) (name : String)
    (now created modified : Int) : Store :=
  match s.dir_file_props.find? (fun r => r.dir_id == did && r.name == name) with
  | some r =>
      { s with
         dir_file_props := s.dir_file_props.map (fun q =>
           if q.id == r.id then
             { q with cached_date := now, created_date := created,
                      modified_date := modified }
           else q) }
  | none =>
      { s with
         dir_file_props := s.dir_file_props ++
           [⟨s.next_file_id, did, name, now, created, modified⟩],
         next_file_id := s.next_file_id + 1 }

/-- The entry loop of `save_dirs_props`:
`for entry in dir.read_dir()?.flatten()` — `.flatten()` drops `Err` entries;
`entry.file_type()?` propagates; non-files `continue`; a non-UTF-8 name fails
the pass; `if let Ok(metadata) = entry.metadata()` drops metadata errors;
`metadata.created()?` / `metadata.modified()?` propagate; then the upsert. -/
def saveList (s : Store) (did : Int) (now : Int) :
    List (Except Unit Entry) → Except Err Store
  | [] => .ok s
  | .error _ :: rest => saveList s did now rest
  | .ok e :: rest =>
      match e.file_type with
      | .error _ => .error .ioErr
      | .ok isFile =>
        if !isFile then saveList s did now rest
        else
          match e.name with
          | none => .error .nameEncoding
          | some name =>
            match e.metadata with
            | .error _ => saveList s did now rest
            | .ok m =>
              match m.created with
              | .error _ => .error .ioErr
              | .ok c =>
                match m.modified with
                | .error _ => .error .ioErr
                | .ok md => saveList (upsertFileProp s did name now c md) did now rest

/-- `save_dirs_props`: bail unless the directory exists, resolve the rowid,
take one `Local::now()` timestamp (the `now` argument), insert the
`dir_actions_log` row, then run the entry loop; the log insert and the upserts
share one transaction.  `exists` is the result of `dir.exists()` and `listing`
the result of `dir.read_dir()`. -/
def save_dirs_props (s : Store) (dirExists : Bool)
    (listing : Except Unit (List (Except Unit Entry)))
    (dir : List String) (now : Int) : Except Err Store :=
  if !dirExists then .error .dirNotFound
  else
    let r := get_dir_prop_row_id s dir
    let s2 := { r.2 with
      dir_actions_log := r.2.dir_actions_log ++
        [⟨r.1, LogActionType.CacheDates.toU8, now⟩] }
    match listing with
    | .error _ => .error .ioErr
    | .ok entries => saveList s2 r.1 now entries

/-- File metadata as stored on the filesystem. -/
structure FileSt where
  created : Int
  modified : Int
deriving Repr, DecidableEq

/-- A filesystem node: a regular file, a directory, or anything else
(symlink, device, ...). -/
inductive Node where
  | file (st : FileSt)
  | dir
  | special
deriving Repr, DecidableEq

/-- The filesystem as the restore path sees it: full path → node. -/
abbrev Fs := List (List String × Node)

def fsGet (fs : Fs) (p : List String) : Option Node :=
  (fs.find? (fun e => e.1 == p)).map (·.2)

/-- `path.exists()`. -/
def fsExists (fs : Fs) (p : List String) : Bool := (fsGet fs p).isSome

/-- `path.is_file()`. -/
def fsIsFile (fs : Fs) (p : List String) : Bool :=
  match fsGet fs p with
  | some (.file _) => true
  | _ => false

/-- `File::set_modified`: rewrite the modification time of the file at `p`;
creation time is untouched. -/
def fsSetModified (fs : Fs) (p : List String) (t : Int) : Fs :=
  fs.map (fun e =>
    if e.1 == p then
      match e.2 with
      | .file st => (e.1, .file ⟨st.created, t⟩)
      | n => (e.1, n)
    else e)

/-- Events of a restore pass, in execution order. -/
inductive Ev where
  | beginTx
  | queryLog
  | queryRecords
  | setModified (p : List String)
  | commitTx
deriving Repr, DecidableEq

/-- `SELECT cached_date FROM dir_actions_log WHERE dir_id = $1 AND
action_type = $2 ORDER BY cached_date DESC LIMIT 1` with
`$2 = LogActionType::CacheDates`: the log rows the restore anchor is chosen
from. -/
def logMatches (s : Store) (did : Int) : List LogRow :=
  s.dir_actions_log.filter
    (fun e => e.dir_id == did && e.action_type == LogActionType.CacheDates.toU8)

/-- The anchor `fetch_one` returns: the maximal `cached_date` among the
matching log rows, `none` on `RowNotFound`. -/
def latestCachedDate (s : Store) (did : Int) : Option Int :=
  ((logMatches s did).map (·.cached_date)).max?

/-- `SELECT name, created_date, modified_date FROM dir_file_props WHERE
dir_id = $1 AND cached_date = $2` (`fetch_all`). -/
def recordsAt (s : Store) (did : Int) (t : Int) : List FilePropRow :=
  s.dir_file_props.filter (fun r => r.dir_id == did && r.cached_date == t)

/-- The file loop of `apply_dirs_props`: for each fetched
`(name, created_date, modified_date)` record, skip when
`!file_path.exists() || !file_path.is_file()`, otherwise open the file and set
its modification time to the stored `modified_date`.  Also records one
`setModified` event per performed write. -/
def applyFiles (dir : List String) (recs : List (String × Int × Int))
    (fs : Fs) : Fs × List Ev :=
  match recs with
  | [] => (fs, [])
  | (name, _, m) :: rest =>
      let p := dir ++ [name]
      if fsExists fs p && fsIsFile fs p then
        let out := applyFiles dir rest (fsSetModified fs p m)
        (out.1, Ev.setModified p :: out.2)
      else applyFiles dir rest fs

/-- `apply_dirs_props`: bail unless the path exists, resolve the rowid
(creating a `dir_props` row if needed), begin a transaction, query the latest
log timestamp (on `RowNotFound` return `Ok(())` early, dropping the
transaction), fetch the matching file records, write the modification times
back, and only then commit.  Returns the store, the filesystem, and the event
trace of the pass. -/
def apply_dirs_props (s : Store) (fs : Fs) (dir : List String) :
    Except Err (Store × Fs × List Ev) :=
  if !fsExists fs dir then .error .dirNotFound
  else
    let r := get_dir_prop_row_id s dir
    match latestCachedDate r.2 r.1 with
    | none => .ok (r.2, fs, [Ev.beginTx, Ev.queryLog])
    | some t =>
        let fprops := (recordsAt r.2 r.1 t).map
          (fun q => (q.name, q.created_date, q.modified_date))
        let out := applyFiles dir fprops fs
        .ok (r.2, out.1,
          [Ev.beginTx, Ev.queryLog, Ev.queryRecords] ++ out.2 ++ [Ev.commitTx])

/-- A clean directory entry for a regular file: every OS call succeeds and the
name is UTF-8. -/
def cleanEntry (nst : String × FileSt) : Except Unit Entry :=
  .ok ⟨.ok true, some nst.1, .ok ⟨.ok nst.2.created, .ok nst.2.modified⟩⟩

/-- The listing `read_dir` produces for a directory holding exactly the given
regular files, with no I/O failures. -/
def dirListing (files : List (String × FileSt)) :
    Except Unit (List (Except Unit Entry)) :=
  .ok (files.map cleanEntry)

/-- A filesystem consisting of one directory holding the given regular
files. -/
def dirFs (dir : List String) (files : List (String × FileSt)) : Fs :=
  (dir, Node.dir) :: files.map (fun nst => (dir ++ [nst.1], Node.file nst.2))

/-! ### Helper lemmas -/

instance : Std.Antisymm (fun x1 x2 : Int => x1 ≤ x2) :=
  ⟨fun h1 h2 => le_antisymm h1 h2⟩

theorem int_max?_eq_some_iff {a : Int} {l : List Int} :
    l.max? = some a ↔ a ∈ l ∧ ∀ b ∈ l, b ≤ a :=
  List.max?_eq_some_iff (fun x => le_refl x) (fun x y => max_choice x y)
    (fun _ _ _ => max_le_iff)

/-- `C10`: the action-kind encoding round-trips on `CacheDates`/`0`
(`LogActionType → u8` gives `0`, `0` decodes back to `CacheDates`, and the
composite is the identity on `0`), and decoding any other byte takes the
`unreachable!` panic arm (modelled as `none`). -/
theorem logActionType_roundtrip :
    LogActionType.toU8 .CacheDates = 0 ∧
    LogActionType.fromU8 0 = some .CacheDates ∧
    (LogActionType.fromU8 0).map LogActionType.toU8 = some 0 ∧
    ∀ n : Nat, n ≠ 0 → LogActionType.fromU8 n = none := by
  refine ⟨rfl, rfl, rfl, fun n hn => ?_⟩
  cases n with
  | zero => exact absurd rfl hn
  | succ k => rfl

theorem logActionType_roundtrip_witness : LogActionType.fromU8 3 = none :=
  logActionType_roundtrip.2.2.2 3 (by decide)

/-- `C5`: restoring a directory that exists but has no prior capture (no
matching `dir_actions_log` row, hence `RowNotFound` on the anchor query)
returns success and leaves the filesystem untouched. -/
theorem apply_no_capture_is_noop (s : Store) (fs : Fs) (dir : List String)
    (hex : fsExists fs dir = true)
    (hnone : latestCachedDate (get_dir_prop_row_id s dir).2
      (get_dir_prop_row_id s dir).1 = none) :
    apply_dirs_props s fs dir =
      .ok ((get_dir_prop_row_id s dir).2, fs, [Ev.beginTx, Ev.queryLog]) := by
  unfold apply_dirs_props
  simp [hex, hnone]

theorem apply_no_capture_is_noop_witness :
    apply_dirs_props initStore [(["d"], Node.dir)] ["d"] =
      .ok ((get_dir_prop_row_id initStore ["d"]).2, [(["d"], Node.dir)],
        [Ev.beginTx, Ev.queryLog]) :=
  apply_no_capture_is_noop initStore [(["d"], Node.dir)] ["d"] (by decide) (by decide)

/-- `C9`: when the given path exists but is a regular file (not a directory),
restore passes the `dir.exists()` precondition, creates a `dir_props` row for
the path as a side effect of `get_dir_prop_row_id` when none existed, and —
as long as no log row can match the freshly allocated rowid — returns success
as a silent no-op without touching the filesystem. -/
theorem apply_on_regular_file_is_noop (s : Store) (fs : Fs) (p : List String)
    (st : FileSt)
    (hfile : fsGet fs p = some (Node.file st))
    (hnew : s.dir_props.find? (fun r => r.path == p) = none)
    (hlog : ∀ e ∈ s.dir_actions_log, e.dir_id ≠ s.next_dir_id) :
    apply_dirs_props s fs p =
      .ok ({ s with
              dir_props := s.dir_props ++ [⟨s.next_dir_id, p⟩]
              next_dir_id := s.next_dir_id + 1 }, fs,
           [Ev.beginTx, Ev.queryLog]) := by
  have hex : fsExists fs p = true := by simp [fsExists, hfile]
  have hdid : get_dir_prop_row_id s p =
      (s.next_dir_id,
       { s with
          dir_props := s.dir_props ++ [⟨s.next_dir_id, p⟩]
          next_dir_id := s.next_dir_id + 1 }) := by
    simp [get_dir_prop_row_id, hnew]
  have hnone : latestCachedDate (get_dir_prop_row_id s p).2
      (get_dir_prop_row_id s p).1 = none := by
    rw [hdid]
    have hfilter : logMatches
        { s with
           dir_props := s.dir_props ++ [⟨s.next_dir_id, p⟩]
           next_dir_id := s.next_dir_id + 1 } s.next_dir_id = [] := by
      rw [logMatches, List.filter_eq_nil_iff]
      intro e he
      simp only [Bool.and_eq_true, beq_iff_eq, not_and]
      intro hid
      exact absurd hid (hlog e he)
    rw [latestCachedDate, hfilter]
    exact List.max?_nil
  rw [apply_no_capture_is_noop s fs p hex hnone, hdid]

theorem apply_on_regular_file_is_noop_witness :
    apply_dirs_props initStore [(["p"], Node.file ⟨1, 2⟩)] ["p"] =
      .ok ({ initStore with
              dir_props := initStore.dir_props ++ [⟨initStore.next_dir_id, ["p"]⟩]
              next_dir_id := initStore.next_dir_id + 1 },
           [(["p"], Node.file ⟨1, 2⟩)], [Ev.beginTx, Ev.queryLog]) :=
  apply_on_regular_file_is_noop initStore [(["p"], Node.file ⟨1, 2⟩)] ["p"] ⟨1, 2⟩
    (by decide) (by decide) (by intro e he; simp [initStore] at he)

/-- `C8`: the restore anchor is deterministic.  The anchor query
(`ORDER BY cached_date DESC LIMIT 1`) can only return a row of maximal
`cached_date`; any two such candidate rows — in particular two log entries
tied on the same timestamp — carry the same `cached_date`, the value the
model's `latestCachedDate` computes, and therefore select the same
`dir_file_props` record set. -/
theorem restore_anchor_deterministic (s : Store) (did : Int) (r1 r2 : LogRow)
    (h1 : r1 ∈ logMatches s did) (h2 : r2 ∈ logMatches s did)
    (hm1 : ∀ r ∈ logMatches s did, r.cached_date ≤ r1.cached_date)
    (hm2 : ∀ r ∈ logMatches s did, r.cached_date ≤ r2.cached_date) :
    r1.cached_date = r2.cached_date ∧
    latestCachedDate s did = some r1.cached_date ∧
    recordsAt s did r1.cached_date = recordsAt s did r2.cached_date := by
  have heq : r1.cached_date = r2.cached_date :=
    le_antisymm (hm2 r1 h1) (hm1 r2 h2)
  refine ⟨heq, ?_, by rw [heq]⟩
  rw [latestCachedDate, int_max?_eq_some_iff]
  constructor
  · exact List.mem_map_of_mem _ h1
  · intro b hb
    obtain ⟨r, hr, rfl⟩ := List.mem_map.mp hb
    exact hm1 r hr

theorem restore_anchor_deterministic_witness :
    (5 : Int) = 5 ∧
    latestCachedDate ⟨[⟨1, ["d"]⟩], [], [⟨1, 0, 5⟩, ⟨1, 0, 5⟩], 2, 1⟩ 1 = some 5 ∧
    recordsAt ⟨[⟨1, ["d"]⟩], [], [⟨1, 0, 5⟩, ⟨1, 0, 5⟩], 2, 1⟩ 1 5 =
      recordsAt ⟨[⟨1, ["d"]⟩], [], [⟨1, 0, 5⟩, ⟨1, 0, 5⟩], 2, 1⟩ 1 5 :=
  restore_anchor_deterministic ⟨[⟨1, ["d"]⟩], [], [⟨1, 0, 5⟩, ⟨1, 0, 5⟩], 2, 1⟩ 1
    ⟨1, 0, 5⟩ ⟨1, 0, 5⟩ (by decide) (by decide) (by decide) (by decide)

/-- A directory listing containing one entry whose read fails (the `read_dir`
iterator yields `Err`) and one regular-file entry whose `metadata()` call
fails. -/
def errListing : Except Unit (List (Except Unit Entry)) :=
  .ok [.error (), .ok ⟨.ok true, some "f", .error ()⟩]

/-- `C6` counterexample: a capture pass over a listing with a failed
directory-entry read and a failed metadata fetch succeeds (recording no file
rows) instead of surfacing an error — `.flatten()` drops `Err` entries and
`if let Ok(metadata)` drops metadata failures. -/
theorem save_ignores_read_errors_cex :
    save_dirs_props initStore true errListing ["d"] 0 =
      .ok ⟨[⟨1, ["d"]⟩], [], [⟨1, 0, 0⟩], 2, 1⟩ := by decide

/-- `C6` (amended): besides the two documented skips, capture silently skips
(1) a directory entry whose read fails and (2) an entry whose `metadata()`
fetch fails; it also skips non-regular files.  Failures of `file_type()`, of
the UTF-8 name conversion, and of `created()` / `modified()` on fetched
metadata do surface as errors. -/
theorem save_error_paths (s : Store) (did now : Int)
    (rest : List (Except Unit Entry)) (e1 e2 e3 e4 e5 e6 : Entry)
    (nm1 nm4 nm5 : String) (m4 m5 : Meta) (c5 : Int)
    (h1a : e1.file_type = .ok true) (h1b : e1.name = some nm1)
    (h1c : e1.metadata = .error ())
    (h2 : e2.file_type = .error ())
    (h3a : e3.file_type = .ok true) (h3b : e3.name = none)
    (h4a : e4.file_type = .ok true) (h4b : e4.name = some nm4)
    (h4c : e4.metadata = .ok m4) (h4d : m4.created = .error ())
    (h5a : e5.file_type = .ok true) (h5b : e5.name = some nm5)
    (h5c : e5.metadata = .ok m5) (h5d : m5.created = .ok c5)
    (h5e : m5.modified = .error ())
    (h6 : e6.file_type = .ok false) :
    saveList s did now (.error () :: rest) = saveList s did now rest ∧
    saveList s did now (.ok e1 :: rest) = saveList s did now rest ∧
    saveList s did now (.ok e2 :: rest) = .error .ioErr ∧
    saveList s did now (.ok e3 :: rest) = .error .nameEncoding ∧
    saveList s did now (.ok e4 :: rest) = .error .ioErr ∧
    saveList s did now (.ok e5 :: rest) = .error .ioErr ∧
    saveList s did now (.ok e6 :: rest) = saveList s did now rest := by
  refine ⟨rfl, ?_, ?_, ?_, ?_, ?_, ?_⟩ <;>
    simp [saveList, h1a, h1b, h1c, h2, h3a, h3b, h4a, h4b, h4c, h4d,
      h5a, h5b, h5c, h5d, h5e, h6]

theorem save_error_paths_witness :
    saveList initStore 1 0 [.error ()] = saveList initStore 1 0 [] ∧
    saveList initStore 1 0 [.ok ⟨.ok true, some "a", .error ()⟩] =
      saveList initStore 1 0 [] ∧
    saveList initStore 1 0 [.ok ⟨.error (), some "a", .error ()⟩] =
      .error .ioErr ∧
    saveList initStore 1 0 [.ok ⟨.ok true, none, .error ()⟩] =
      .error .nameEncoding ∧
    saveList initStore 1 0 [.ok ⟨.ok true, some "a", .ok ⟨.error (), .ok 0⟩⟩] =
      .error .ioErr ∧
    saveList initStore 1 0 [.ok ⟨.ok true, some "a", .ok ⟨.ok 0, .error ()⟩⟩] =
      .error .ioErr ∧
    saveList initStore 1 0 [.ok ⟨.ok false, some "a", .error ()⟩] =
      saveList initStore 1 0 [] :=
  save_error_paths initStore 1 0 []
    ⟨.ok true, some "a", .error ()⟩ ⟨.error (), some "a", .error ()⟩
    ⟨.ok true, none, .error ()⟩ ⟨.ok true, some "a", .ok ⟨.error (), .ok 0⟩⟩
    ⟨.ok true, some "a", .ok ⟨.ok 0, .error ()⟩⟩ ⟨.ok false, some "a", .error ()⟩
    "a" "a" "a" ⟨.error (), .ok 0⟩ ⟨.ok 0, .error ()⟩ 0
    rfl rfl rfl rfl rfl rfl rfl rfl rfl rfl rfl rfl rfl rfl rfl rfl

/-- `true` iff no `setModified` event occurs before the first `commitTx`:
the property that all filesystem writes of a restore pass happen only after
the transaction has completed. -/
def writesOutsideTx : List Ev → Bool
  | [] => true
  | Ev.commitTx :: _ => true
  | Ev.setModified _ :: _ => false
  | _ :: rest => writesOutsideTx rest

/-- Store for the C7 scenario: directory `["d"]` (rowid 1) captured once at
time 5, with one file record for `"f"`. -/
def c7Store : Store :=
  ⟨[⟨1, ["d"]⟩], [⟨1, 1, "f", 5, 10, 20⟩], [⟨1, 0, 5⟩], 2, 2⟩

/-- Filesystem for the C7 scenario: `["d"]` exists and holds regular file
`"f"`. -/
def c7Fs : Fs := [(["d"], Node.dir), (["d", "f"], Node.file ⟨10, 99⟩)]

/-- `C7` counterexample: in a restore pass that writes one file, the
`setModified` write happens before `commitTx` — i.e. inside the store
transaction, not after it has completed as the claim states. -/
theorem restore_writes_before_commit_cex :
    apply_dirs_props c7Store c7Fs ["d"] =
      .ok (c7Store, [(["d"], Node.dir), (["d", "f"], Node.file ⟨10, 20⟩)],
        [Ev.beginTx, Ev.queryLog, Ev.queryRecords, Ev.setModified ["d", "f"],
         Ev.commitTx]) ∧
    writesOutsideTx
      [Ev.beginTx, Ev.queryLog, Ev.queryRecords, Ev.setModified ["d", "f"],
       Ev.commitTx] = false := by decide

theorem applyFiles_events (dir : List String) :
    ∀ (recs : List (String × Int × Int)) (fs : Fs),
    ∀ e ∈ (applyFiles dir recs fs).2, ∃ p, e = Ev.setModified p := by
  intro recs
  induction recs with
  | nil => intro fs e he; simp [applyFiles] at he
  | cons r rest ih =>
      intro fs e he
      obtain ⟨n, c, m⟩ := r
      by_cases h : (fsExists fs (dir ++ [n]) && fsIsFile fs (dir ++ [n])) = true
      · rw [applyFiles] at he
        simp only [h, if_true] at he
        rcases List.mem_cons.mp he with h1 | h1
        · exact ⟨dir ++ [n], h1⟩
        · exact ih _ e h1
      · rw [applyFiles] at he
        simp only [Bool.not_eq_true] at h
        simp only [h, Bool.false_eq_true, if_false] at he
        exact ih _ e he

/-- `C7` (amended): the anchor query and the record fetch happen inside one
store transaction, and the filesystem modification-time writes also happen
inside that transaction — after both reads but before the transaction
commits (the source calls `tx.commit()` only after the write loop). -/
theorem restore_reads_and_writes_inside_one_tx (s : Store) (fs : Fs)
    (dir : List String) (t : Int)
    (hex : fsExists fs dir = true)
    (ha : latestCachedDate (get_dir_prop_row_id s dir).2
      (get_dir_prop_row_id s dir).1 = some t) :
    ∃ fs2 writes,
      apply_dirs_props s fs dir =
        .ok ((get_dir_prop_row_id s dir).2, fs2,
          [Ev.beginTx, Ev.queryLog, Ev.queryRecords] ++ writes ++
            [Ev.commitTx]) ∧
      ∀ e ∈ writes, ∃ p, e = Ev.setModified p := by
  have happ : apply_dirs_props s fs dir =
      .ok ((get_dir_prop_row_id s dir).2,
        (applyFiles dir ((recordsAt (get_dir_prop_row_id s dir).2
            (get_dir_prop_row_id s dir).1 t).map
          (fun q => (q.name, q.created_date, q.modified_date))) fs).1,
        [Ev.beginTx, Ev.queryLog, Ev.queryRecords] ++
          (applyFiles dir ((recordsAt (get_dir_prop_row_id s dir).2
              (get_dir_prop_row_id s dir).1 t).map
            (fun q => (q.name, q.created_date, q.modified_date))) fs).2 ++
          [Ev.commitTx]) := by
    unfold apply_dirs_props
    simp [hex, ha]
  exact ⟨_, _, happ, applyFiles_events dir _ fs⟩

theorem restore_reads_and_writes_inside_one_tx_witness :
    ∃ fs2 writes,
      apply_dirs_props c7Store c7Fs ["d"] =
        .ok ((get_dir_prop_row_id c7Store ["d"]).2, fs2,
          [Ev.beginTx, Ev.queryLog, Ev.queryRecords] ++ writes ++
            [Ev.commitTx]) ∧
      ∀ e ∈ writes, ∃ p, e = Ev.setModified p :=
  restore_reads_and_writes_inside_one_tx c7Store c7Fs ["d"] 5 (by decide)
    (by decide)

/-- Any store property preserved by the per-file upsert is preserved by the
whole entry loop of a capture pass. -/
theorem saveList_inv (P : Store → Prop) (did now : Int)
    (hup : ∀ s nm c md, P s → P (upsertFileProp s did nm now c md)) :
    ∀ (es : List (Except Unit Entry)) (s s' : Store), P s →
      saveList s did now es = .ok s' → P s' := by
  intro es
  induction es with
  | nil =>
      intro s s' hP h
      rw [saveList] at h
      injection h with h2
      rw [← h2]
      exact hP
  | cons e rest ih =>
      intro s s' hP h
      cases e with
      | error u => exact ih s s' hP h
      | ok en =>
          rw [saveList] at h
          cases hft : en.file_type with
          | error u => simp [hft] at h
          | ok isf =>
              cases isf with
              | false =>
                  simp only [hft, Bool.not_false, if_true] at h
                  exact ih s s' hP h
              | true =>
                  simp only [hft, Bool.not_true, Bool.false_eq_true, if_false] at h
                  cases hnm : en.name with
                  | none => simp [hnm] at h
                  | some nm =>
                      cases hmd : en.metadata with
                      | error u =>
                          simp only [hnm, hmd] at h
                          exact ih s s' hP h
                      | ok m =>
                          cases hc : m.created with
                          | error u => simp [hnm, hmd, hc] at h
                          | ok c =>
                              cases hm2 : m.modified with
                              | error u => simp [hnm, hmd, hc, hm2] at h
                              | ok md =>
                                  simp only [hnm, hmd, hc, hm2] at h
                                  exact ih _ s' (hup s nm c md hP) h

/-- `get_dir_prop_row_id` touches only `dir_props` / `next_dir_id`. -/
theorem get_dir_prop_row_id_frame (s : Store) (dir : List String) :
    (get_dir_prop_row_id s dir).2.dir_file_props = s.dir_file_props ∧
    (get_dir_prop_row_id s dir).2.dir_actions_log = s.dir_actions_log ∧
    (get_dir_prop_row_id s dir).2.next_file_id = s.next_file_id := by
  unfold get_dir_prop_row_id
  split <;> simp

/-- Every row of the store after an upsert is either an untouched old row or
carries `cached_date = now`. -/
theorem upsertFileProp_rows (s : Store) (did : Int) (nm : String)
    (now c md : Int) :
    ∀ r ∈ (upsertFileProp s did nm now c md).dir_file_props,
      r ∈ s.dir_file_props ∨ r.cached_date = now := by
  intro r hr
  rw [upsertFileProp] at hr
  cases hfind : s.dir_file_props.find? (fun q => q.dir_id == did && q.name == nm) with
  | some q =>
      simp only [hfind] at hr
      obtain ⟨x, hx, hmap⟩ := List.mem_map.mp hr
      by_cases hid : x.id = q.id
      · right
        rw [← hmap]
        simp [hid]
      · left
        rw [← hmap]
        simp only [beq_iff_eq, hid, if_false]
        exact hx
  | none =>
      simp only [hfind] at hr
      rcases List.mem_append.mp hr with h | h
      · exact Or.inl h
      · right
        simp only [List.mem_singleton] at h
        rw [h]

/-- The per-file upsert touches only `dir_file_props` / `next_file_id`. -/
theorem upsertFileProp_frame (s : Store) (did : Int) (nm : String)
    (now c md : Int) :
    (upsertFileProp s did nm now c md).dir_actions_log = s.dir_actions_log ∧
    (upsertFileProp s did nm now c md).dir_props = s.dir_props := by
  unfold upsertFileProp
  split <;> simp

/-- `C3`: a capture pass computes one timestamp `now`, appends exactly one
`dir_actions_log` entry carrying it, and every `dir_file_props` row the pass
writes (inserted or updated) carries the same `cached_date = now`; rows not
written by the pass are left as they were. -/
theorem save_single_capture_timestamp (s s' : Store) (ex : Bool)
    (listing : Except Unit (List (Except Unit Entry))) (dir : List String)
    (now : Int)
    (h : save_dirs_props s ex listing dir now = .ok s') :
    s'.dir_actions_log = s.dir_actions_log ++
      [⟨(get_dir_prop_row_id s dir).1, LogActionType.CacheDates.toU8, now⟩] ∧
    ∀ r ∈ s'.dir_file_props, r ∈ s.dir_file_props ∨ r.cached_date = now := by
  rw [save_dirs_props] at h
  cases ex with
  | false => simp at h
  | true =>
      simp only [Bool.not_true, Bool.false_eq_true, if_false] at h
      cases hl : listing with
      | error u => simp [hl] at h
      | ok entries =>
          simp only [hl] at h
          constructor
          · refine saveList_inv
              (fun t => t.dir_actions_log = s.dir_actions_log ++
                [⟨(get_dir_prop_row_id s dir).1, LogActionType.CacheDates.toU8,
                  now⟩])
              (get_dir_prop_row_id s dir).1 now ?_ entries _ s' ?_ h
            · intro t nm c md hP
              rw [(upsertFileProp_frame t (get_dir_prop_row_id s dir).1 nm now c md).1]
              exact hP
            · simp only
              rw [(get_dir_prop_row_id_frame s dir).2.1]
          · refine saveList_inv
              (fun t => ∀ r ∈ t.dir_file_props,
                r ∈ s.dir_file_props ∨ r.cached_date = now)
              (get_dir_prop_row_id s dir).1 now ?_ entries _ s' ?_ h
            · intro t nm c md hP r hr
              rcases upsertFileProp_rows t (get_dir_prop_row_id s dir).1 nm now c md
                  r hr with h1 | h1
              · exact hP r h1
              · exact Or.inr h1
            · intro r hr
              simp only at hr
              rw [(get_dir_prop_row_id_frame s dir).1] at hr
              exact Or.inl hr

theorem save_single_capture_timestamp_witness :
    save_dirs_props initStore true (dirListing [("f", ⟨10, 20⟩)]) ["d"] 100 =
      .ok ⟨[⟨1, ["d"]⟩], [⟨1, 1, "f", 100, 10, 20⟩], [⟨1, 0, 100⟩], 2, 2⟩ ∧
    ((⟨[⟨1, ["d"]⟩], [⟨1, 1, "f", 100, 10, 20⟩], [⟨1, 0, 100⟩], 2, 2⟩ :
        Store).dir_actions_log =
      initStore.dir_actions_log ++
        [⟨(get_dir_prop_row_id initStore ["d"]).1,
          LogActionType.CacheDates.toU8, 100⟩] ∧
    ∀ r ∈ (⟨[⟨1, ["d"]⟩], [⟨1, 1, "f", 100, 10, 20⟩], [⟨1, 0, 100⟩], 2, 2⟩ :
        Store).dir_file_props,
      r ∈ initStore.dir_file_props ∨ r.cached_date = 100) :=
  ⟨by decide,
   save_single_capture_timestamp initStore
     ⟨[⟨1, ["d"]⟩], [⟨1, 1, "f", 100, 10, 20⟩], [⟨1, 0, 100⟩], 2, 2⟩ true
     (dirListing [("f", ⟨10, 20⟩)]) ["d"] 100 (by decide)⟩

/-- The store invariant of claim C2: at most one `dir_file_props` row per
`(dir_id, name)` pair. -/
def atMostOnePerKey (rows : List FilePropRow) : Prop :=
  rows.Pairwise (fun a b => ¬(a.dir_id = b.dir_id ∧ a.name = b.name))

/-- The upsert preserves key uniqueness: the update branch rewrites dates of
an existing row (never its key), and the insert branch fires only when the
lookup found no row with that key. -/
theorem upsertFileProp_key_inv (s : Store) (did : Int) (nm : String)
    (now c md : Int) (hinv : atMostOnePerKey s.dir_file_props) :
    atMostOnePerKey (upsertFileProp s did nm now c md).dir_file_props := by
  rw [upsertFileProp]
  cases hfind : s.dir_file_props.find?
      (fun q => q.dir_id == did && q.name == nm) with
  | some q =>
      simp only
      refine List.Pairwise.map _ ?_ hinv
      intro a b hab hcon
      apply hab
      constructor
      · have h1 := hcon.1
        revert h1
        split <;> split <;> exact fun h => h
      · have h2 := hcon.2
        revert h2
        split <;> split <;> exact fun h => h
  | none =>
      simp only
      rw [atMostOnePerKey, List.pairwise_append]
      refine ⟨hinv, List.pairwise_singleton _ _, ?_⟩
      intro a ha b hb
      simp only [List.mem_singleton] at hb
      subst hb
      have hmiss := List.find?_eq_none.mp hfind a ha
      intro hcon
      exact hmiss (by simp [hcon.1, hcon.2])

/-- `C2`: a capture pass preserves the invariant that there is at most one
`dir_file_props` row per `(dir_id, name)`: it inserts a row for a name only
when none exists and otherwise updates the existing row in place. -/
theorem save_preserves_at_most_one_per_key (s s' : Store) (ex : Bool)
    (listing : Except Unit (List (Except Unit Entry))) (dir : List String)
    (now : Int)
    (hinv : atMostOnePerKey s.dir_file_props)
    (h : save_dirs_props s ex listing dir now = .ok s') :
    atMostOnePerKey s'.dir_file_props := by
  rw [save_dirs_props] at h
  cases ex with
  | false => simp at h
  | true =>
      simp only [Bool.not_true, Bool.false_eq_true, if_false] at h
      cases hl : listing with
      | error u => simp [hl] at h
      | ok entries =>
          simp only [hl] at h
          refine saveList_inv (fun t => atMostOnePerKey t.dir_file_props)
            (get_dir_prop_row_id s dir).1 now ?_ entries _ s' ?_ h
          · intro t nm c md hP
            exact upsertFileProp_key_inv t (get_dir_prop_row_id s dir).1 nm
              now c md hP
          · simp only
            rw [(get_dir_prop_row_id_frame s dir).1]
            exact hinv

theorem save_preserves_at_most_one_per_key_witness :
    atMostOnePerKey
      (⟨[⟨1, ["d"]⟩], [⟨1, 1, "f", 200, 10, 30⟩], [⟨1, 0, 100⟩, ⟨1, 0, 200⟩],
        2, 2⟩ : Store).dir_file_props :=
  save_preserves_at_most_one_per_key
    ⟨[⟨1, ["d"]⟩], [⟨1, 1, "f", 100, 10, 20⟩], [⟨1, 0, 100⟩], 2, 2⟩
    ⟨[⟨1, ["d"]⟩], [⟨1, 1, "f", 200, 10, 30⟩], [⟨1, 0, 100⟩, ⟨1, 0, 200⟩], 2, 2⟩
    true (dirListing [("f", ⟨10, 30⟩)]) ["d"] 200
    (by simp [atMostOnePerKey]) (by decide)

/-- `fsSetModified` keeps every entry's path. -/
theorem fsSetModified_key (p : List String) (t : Int)
    (e : List String × Node) :
    (if e.1 == p then
       match e.2 with
       | Node.file st => (e.1, Node.file ⟨st.created, t⟩)
       | n => (e.1, n)
     else e).1 = e.1 := by
  split
  · split <;> rfl
  · rfl

/-- Writing the modification time of `p` does not affect lookups of other
paths. -/
theorem fsGet_setModified_ne (fs : Fs) (p q : List String) (t : Int)
    (h : q ≠ p) : fsGet (fsSetModified fs p t) q = fsGet fs q := by
  rw [fsGet, fsSetModified, List.find?_map]
  have hpred : ((fun e : List String × Node => e.1 == q) ∘
      (fun e : List String × Node =>
        if e.1 == p then
          match e.2 with
          | Node.file st => (e.1, Node.file ⟨st.created, t⟩)
          | n => (e.1, n)
        else e)) = fun e : List String × Node => e.1 == q := by
    funext e
    simp only [Function.comp_apply]
    rw [fsSetModified_key]
  rw [hpred]
  cases hfind : fs.find? (fun e => e.1 == q) with
  | none => simp [fsGet, hfind]
  | some a =>
      have he : (a.1 == q) = true :=
        List.find?_some (p := fun e : List String × Node => e.1 == q) hfind
      have he1 : a.1 = q := by simpa using he
      have hne : (a.1 == p) = false := by
        simp only [beq_eq_false_iff_ne, ne_eq, he1]
        exact h
      rw [fsGet, hfind]
      simp only [Option.map_some']
      rw [hne]
      simp

/-- Writing the modification time of a regular file at `p` rewrites exactly
its `modified` field. -/
theorem fsGet_setModified_file (fs : Fs) (p : List String) (t : Int)
    (st : FileSt) (h : fsGet fs p = some (Node.file st)) :
    fsGet (fsSetModified fs p t) p = some (Node.file ⟨st.created, t⟩) := by
  rw [fsGet, fsSetModified, List.find?_map]
  have hpred : ((fun e : List String × Node => e.1 == p) ∘
      (fun e : List String × Node =>
        if e.1 == p then
          match e.2 with
          | Node.file st => (e.1, Node.file ⟨st.created, t⟩)
          | n => (e.1, n)
        else e)) = fun e : List String × Node => e.1 == p := by
    funext e
    simp only [Function.comp_apply]
    rw [fsSetModified_key]
  rw [hpred]
  rw [fsGet] at h
  cases hfind : fs.find? (fun e => e.1 == p) with
  | none => rw [hfind] at h; simp at h
  | some a =>
      rw [hfind] at h
      simp only [Option.map_some'] at h
      have hkey : (a.1 == p) = true :=
        List.find?_some (p := fun e : List String × Node => e.1 == p) hfind
      have ha2 : a.2 = Node.file st := Option.some.inj h
      simp only [Option.map_some']
      rw [hkey, ha2]
      simp

/-- Joining distinct names under the same directory yields distinct paths. -/
theorem join_ne_of_name_ne (dir : List String) (a b : String) (h : a ≠ b) :
    dir ++ [a] ≠ dir ++ [b] := by
  intro hc
  have h2 := List.append_cancel_left hc
  injection h2 with h3
  exact h h3

/-- Restore records none of which is named `f` leave the file at
`dir ++ [f]` alone. -/
theorem applyFiles_get_notin (dir : List String) (f : String) :
    ∀ (recs : List (String × Int × Int)) (fs : Fs),
    (∀ r ∈ recs, r.1 ≠ f) →
    fsGet (applyFiles dir recs fs).1 (dir ++ [f]) = fsGet fs (dir ++ [f]) := by
  intro recs
  induction recs with
  | nil => intro fs h; rfl
  | cons r rest ih =>
      intro fs h
      obtain ⟨n, c, m⟩ := r
      have hnf : n ≠ f := h (n, c, m) (List.mem_cons_self _ _)
      have hne : (dir ++ [f]) ≠ (dir ++ [n]) :=
        join_ne_of_name_ne dir f n (fun hc => hnf hc.symm)
      by_cases hc : (fsExists fs (dir ++ [n]) && fsIsFile fs (dir ++ [n])) = true
      · rw [applyFiles]
        simp only [hc, if_true]
        rw [ih _ (fun r hr => h r (List.mem_cons_of_mem _ hr))]
        exact fsGet_setModified_ne fs (dir ++ [n]) (dir ++ [f]) m hne
      · rw [applyFiles]
        simp only [Bool.not_eq_true] at hc
        simp only [hc, Bool.false_eq_true, if_false]
        exact ih _ (fun r hr => h r (List.mem_cons_of_mem _ hr))

/-- If the restore record set contains `(f, c, m)` exactly once (record names
are distinct) and `dir ++ [f]` holds a regular file, the write loop rewrites
exactly that file's modification time to `m`, keeping its creation time. -/
theorem applyFiles_get_target (dir : List String) :
    ∀ (recs : List (String × Int × Int)) (fs : Fs) (f : String) (c m : Int)
      (st : FileSt),
    (recs.map Prod.fst).Nodup → (f, c, m) ∈ recs →
    fsGet fs (dir ++ [f]) = some (Node.file st) →
    fsGet (applyFiles dir recs fs).1 (dir ++ [f]) =
      some (Node.file ⟨st.created, m⟩) := by
  intro recs
  induction recs with
  | nil => intro fs f c m st hnd hmem hget; simp at hmem
  | cons r rest ih =>
      intro fs f c m st hnd hmem hget
      obtain ⟨n, c', m'⟩ := r
      simp only [List.map_cons, List.nodup_cons] at hnd
      rcases List.mem_cons.mp hmem with heq | hmem2
      · injection heq with hf hcm
        injection hcm with hc2 hm2
        subst hf
        subst hm2
        have hex : fsExists fs (dir ++ [f]) = true := by
          simp [fsExists, hget]
        have hisf : fsIsFile fs (dir ++ [f]) = true := by
          simp [fsIsFile, hget]
        rw [applyFiles]
        simp only [hex, hisf, Bool.and_self, if_true]
        have hrest : ∀ r ∈ rest, r.1 ≠ f := by
          intro r hr hc
          exact hnd.1 (hc ▸ List.mem_map_of_mem Prod.fst hr)
        rw [applyFiles_get_notin dir f rest _ hrest]
        exact fsGet_setModified_file fs (dir ++ [f]) m st hget
      · have hf_in : f ∈ rest.map Prod.fst :=
          List.mem_map_of_mem Prod.fst hmem2
        have hnf : n ≠ f := fun hc => hnd.1 (hc ▸ hf_in)
        have hne : (dir ++ [f]) ≠ (dir ++ [n]) :=
          join_ne_of_name_ne dir f n (fun hc => hnf hc.symm)
        by_cases hcond :
            (fsExists fs (dir ++ [n]) && fsIsFile fs (dir ++ [n])) = true
        · rw [applyFiles]
          simp only [hcond, if_true]
          refine ih (fsSetModified fs (dir ++ [n]) m') f c m st hnd.2 hmem2 ?_
          rw [fsGet_setModified_ne _ _ _ _ hne]
          exact hget
        · rw [applyFiles]
          simp only [Bool.not_eq_true] at hcond
          simp only [hcond, Bool.false_eq_true, if_false]
          exact ih fs f c m st hnd.2 hmem2 hget

/-- The `dir_file_props` rows a clean capture pass inserts for a fresh file
list: consecutive rowids starting at `sid`, all tagged `cached_date = now`. -/
def cleanRows (did : Int) (sid : Int) (now : Int) :
    List (String × FileSt) → List FilePropRow
  | [] => []
  | (n, st) :: rest =>
      ⟨sid, did, n, now, st.created, st.modified⟩ ::
        cleanRows did (sid + 1) now rest

/-- Running the capture entry loop over a clean listing whose names are fresh
for this directory inserts one row per file, in order. -/
theorem saveList_clean (did now : Int) :
    ∀ (files : List (String × FileSt)) (s : Store),
    (files.map Prod.fst).Nodup →
    (∀ p ∈ files, s.dir_file_props.find?
      (fun r => r.dir_id == did && r.name == p.1) = none) →
    saveList s did now (files.map cleanEntry) =
      .ok { s with
             dir_file_props := s.dir_file_props ++
               cleanRows did s.next_file_id now files
             next_file_id := s.next_file_id + files.length } := by
  intro files
  induction files with
  | nil =>
      intro s hnd hmiss
      simp [saveList, cleanRows]
  | cons p rest ih =>
      intro s hnd hmiss
      obtain ⟨n, st⟩ := p
      simp only [List.map_cons, List.nodup_cons] at hnd
      have hfind : s.dir_file_props.find?
          (fun r => r.dir_id == did && r.name == n) = none :=
        hmiss (n, st) (List.mem_cons_self _ _)
      have hstep : saveList s did now (cleanEntry (n, st) :: rest.map cleanEntry) =
          saveList (upsertFileProp s did n now st.created st.modified) did now
            (rest.map cleanEntry) := rfl
      rw [List.map_cons, hstep]
      have hup : upsertFileProp s did n now st.created st.modified =
          { s with
             dir_file_props := s.dir_file_props ++
               [⟨s.next_file_id, did, n, now, st.created, st.modified⟩]
             next_file_id := s.next_file_id + 1 } := by
        rw [upsertFileProp]
        simp only [hfind]
      rw [hup]
      rw [ih _ hnd.2 ?_]
      · simp only [cleanRows, List.length_cons]
        rw [List.append_assoc]
        simp only [List.singleton_append, Nat.cast_add, Nat.cast_one]
        have harith : s.next_file_id + 1 + (rest.length : Int) =
            s.next_file_id + ((rest.length : Int) + 1) := by ring
        rw [harith]
      · intro q hq
        rw [List.find?_append]
        rw [hmiss q (List.mem_cons_of_mem _ hq)]
        rw [Option.none_or]
        have hqn : n ≠ q.1 := by
          intro hc
          exact hnd.1 (hc ▸ List.mem_map_of_mem Prod.fst hq)
        have hb : (n == q.1) = false := beq_eq_false_iff_ne.mpr hqn
        simp [List.find?, hb]

/-- A clean capture of a directory on a fresh store: directory rowid 1, one
log row tagged `now`, and one file row per listed file with rowids from 1. -/
theorem save_clean_fresh (dir : List String) (files : List (String × FileSt))
    (now : Int) (hnd : (files.map Prod.fst).Nodup) :
    save_dirs_props initStore true (dirListing files) dir now =
      .ok ⟨[⟨1, dir⟩], cleanRows 1 1 now files, [⟨1, 0, now⟩], 2,
        1 + files.length⟩ := by
  have h0 : save_dirs_props initStore true (dirListing files) dir now =
      saveList ⟨[⟨1, dir⟩], [], [⟨1, 0, now⟩], 2, 1⟩ 1 now
        (files.map cleanEntry) := rfl
  rw [h0, saveList_clean 1 now files ⟨[⟨1, dir⟩], [], [⟨1, 0, now⟩], 2, 1⟩
    hnd (fun q hq => rfl)]
  simp

/-- Every row a clean pass produced matches the record-set filter for its own
`(dir_id, cached_date)`. -/
theorem filter_cleanRows (did now : Int) :
    ∀ (files : List (String × FileSt)) (sid : Int),
    (cleanRows did sid now files).filter
      (fun r => r.dir_id == did && r.cached_date == now) =
      cleanRows did sid now files := by
  intro files
  induction files with
  | nil => intro sid; rfl
  | cons p rest ih =>
      intro sid
      obtain ⟨n, st⟩ := p
      simp [cleanRows, List.filter_cons, ih]

/-- Projecting the clean rows back to `(name, created, modified)` recovers
the captured file list. -/
theorem cleanRows_fprops (did now : Int) :
    ∀ (files : List (String × FileSt)) (sid : Int),
    (cleanRows did sid now files).map
      (fun q => (q.name, q.created_date, q.modified_date)) =
      files.map (fun p => (p.1, p.2.created, p.2.modified)) := by
  intro files
  induction files with
  | nil => intro sid; rfl
  | cons p rest ih =>
      intro sid
      obtain ⟨n, st⟩ := p
      simp [cleanRows, ih]

/-- `C1`: round-trip.  Capture a directory whose listing contains file `f`
with creation time `cc` and modification time `mm`; later, with `f` on disk
carrying arbitrary creation time `c2` and modification time `m2` (e.g. after
its modification time was changed), restore succeeds, sets `f`'s modification
time back to the captured `mm` (not `m2`), and leaves its creation time `c2`
untouched — restore never rewrites creation time. -/
theorem capture_restore_roundtrip (dir : List String) (f : String)
    (files : List (String × FileSt)) (cc mm c2 m2 now : Int) (fs : Fs)
    (hnd : (files.map Prod.fst).Nodup)
    (hf : (f, ⟨cc, mm⟩) ∈ files)
    (hex : fsExists fs dir = true)
    (hff : fsGet fs (dir ++ [f]) = some (Node.file ⟨c2, m2⟩)) :
    ∃ s1 fs2 tr,
      save_dirs_props initStore true (dirListing files) dir now = .ok s1 ∧
      apply_dirs_props s1 fs dir = .ok (s1, fs2, tr) ∧
      fsGet fs2 (dir ++ [f]) = some (Node.file ⟨c2, mm⟩) := by
  have hsave := save_clean_fresh dir files now hnd
  have hgd : get_dir_prop_row_id
      ⟨[⟨1, dir⟩], cleanRows 1 1 now files, [⟨1, 0, now⟩], 2,
        1 + files.length⟩ dir =
      (1, ⟨[⟨1, dir⟩], cleanRows 1 1 now files, [⟨1, 0, now⟩], 2,
        1 + files.length⟩) := by
    rw [get_dir_prop_row_id]
    have hd : (dir == dir) = true := by simp
    simp [List.find?, hd]
  have hlat : latestCachedDate
      ⟨[⟨1, dir⟩], cleanRows 1 1 now files, [⟨1, 0, now⟩], 2,
        1 + files.length⟩ 1 = some now := by
    simp [latestCachedDate, logMatches, LogActionType.toU8]
  have hrec : recordsAt
      ⟨[⟨1, dir⟩], cleanRows 1 1 now files, [⟨1, 0, now⟩], 2,
        1 + files.length⟩ 1 now = cleanRows 1 1 now files := by
    rw [recordsAt]
    exact filter_cleanRows 1 now files 1
  have happly : apply_dirs_props
      ⟨[⟨1, dir⟩], cleanRows 1 1 now files, [⟨1, 0, now⟩], 2,
        1 + files.length⟩ fs dir =
      .ok (⟨[⟨1, dir⟩], cleanRows 1 1 now files, [⟨1, 0, now⟩], 2,
          1 + files.length⟩,
        (applyFiles dir
          (files.map (fun p => (p.1, p.2.created, p.2.modified))) fs).1,
        [Ev.beginTx, Ev.queryLog, Ev.queryRecords] ++
          (applyFiles dir
            (files.map (fun p => (p.1, p.2.created, p.2.modified))) fs).2 ++
          [Ev.commitTx]) := by
    rw [apply_dirs_props]
    simp only [hex, Bool.not_true, Bool.false_eq_true, if_false]
    rw [hgd]
    simp only
    rw [hlat]
    simp only
    rw [hrec, cleanRows_fprops]
  have hndFP : ((files.map
      (fun p : String × FileSt => (p.1, p.2.created, p.2.modified))).map
        Prod.fst).Nodup := by
    rw [List.map_map]
    exact hnd
  have hmemFP : (f, cc, mm) ∈ files.map
      (fun p : String × FileSt => (p.1, p.2.created, p.2.modified)) :=
    List.mem_map_of_mem _ hf
  have htarget := applyFiles_get_target dir
    (files.map (fun p => (p.1, p.2.created, p.2.modified))) fs f cc mm
    ⟨c2, m2⟩ hndFP hmemFP hff
  exact ⟨_, _, _, hsave, happly, htarget⟩

theorem capture_restore_roundtrip_witness :
    ∃ s1 fs2 tr,
      save_dirs_props initStore true (dirListing [("f", ⟨10, 20⟩)]) ["d"] 100 =
        .ok s1 ∧
      apply_dirs_props s1
        [(["d"], Node.dir), (["d", "f"], Node.file ⟨10, 77⟩)] ["d"] =
        .ok (s1, fs2, tr) ∧
      fsGet fs2 (["d"] ++ ["f"]) = some (Node.file ⟨10, 20⟩) :=
  capture_restore_roundtrip ["d"] "f" [("f", ⟨10, 20⟩)] 10 20 10 77 100
    [(["d"], Node.dir), (["d", "f"], Node.file ⟨10, 77⟩)]
    (by decide) (by decide) (by decide) (by decide)

/-- `C4`: capture a directory containing `f`, then capture it again with `f`
gone and `g` present (at a strictly later timestamp).  A subsequent restore
anchors on the second capture: it rewrites `g`'s modification time to the
captured value but never touches `f` — `f`'s row keeps the stale
`captured_at = now1`, which differs from the anchor `now2`, so it is excluded
from the record set and no write event for `f`'s path occurs. -/
theorem stale_rows_excluded_from_restore (d : List String) (f g : String)
    (hfg : f ≠ g) (cf mf cg mg cg2 mg2 now1 now2 : Int) (hlt : now1 < now2)
    (fs : Fs)
    (hex : fsExists fs d = true)
    (hg : fsGet fs (d ++ [g]) = some (Node.file ⟨cg2, mg2⟩)) :
    ∃ s1 s2 fs2 tr,
      save_dirs_props initStore true (dirListing [(f, ⟨cf, mf⟩)]) d now1 =
        .ok s1 ∧
      save_dirs_props s1 true (dirListing [(g, ⟨cg, mg⟩)]) d now2 = .ok s2 ∧
      apply_dirs_props s2 fs d = .ok (s2, fs2, tr) ∧
      fsGet fs2 (d ++ [g]) = some (Node.file ⟨cg2, mg⟩) ∧
      fsGet fs2 (d ++ [f]) = fsGet fs (d ++ [f]) ∧
      Ev.setModified (d ++ [f]) ∉ tr := by
  have hd : (d == d) = true := by simp
  have hfgb : (f == g) = false := beq_eq_false_iff_ne.mpr hfg
  -- first capture
  have hsave1 : save_dirs_props initStore true (dirListing [(f, ⟨cf, mf⟩)]) d now1 =
      .ok ⟨[⟨1, d⟩], [⟨1, 1, f, now1, cf, mf⟩], [⟨1, 0, now1⟩], 2, 2⟩ := by
    have h := save_clean_fresh d [(f, ⟨cf, mf⟩)] now1 (by simp)
    simpa [cleanRows] using h
  -- second capture
  have hgd1 : get_dir_prop_row_id
      (⟨[⟨1, d⟩], [⟨1, 1, f, now1, cf, mf⟩], [⟨1, 0, now1⟩], 2, 2⟩ : Store) d =
      (1, ⟨[⟨1, d⟩], [⟨1, 1, f, now1, cf, mf⟩], [⟨1, 0, now1⟩], 2, 2⟩) := by
    rw [get_dir_prop_row_id]
    simp [List.find?, hd]
  have hsave2 : save_dirs_props
      ⟨[⟨1, d⟩], [⟨1, 1, f, now1, cf, mf⟩], [⟨1, 0, now1⟩], 2, 2⟩ true
      (dirListing [(g, ⟨cg, mg⟩)]) d now2 =
      .ok ⟨[⟨1, d⟩], [⟨1, 1, f, now1, cf, mf⟩, ⟨2, 1, g, now2, cg, mg⟩],
        [⟨1, 0, now1⟩, ⟨1, 0, now2⟩], 2, 3⟩ := by
    rw [save_dirs_props, dirListing]
    simp only [Bool.not_true, Bool.false_eq_true, if_false]
    rw [hgd1]
    simp only [LogActionType.toU8, List.singleton_append]
    rw [saveList_clean 1 now2 [(g, ⟨cg, mg⟩)]
      ⟨[⟨1, d⟩], [⟨1, 1, f, now1, cf, mf⟩], [⟨1, 0, now1⟩, ⟨1, 0, now2⟩], 2, 2⟩
      (by simp) ?_]
    · simp [cleanRows]
    · intro q hq
      simp only [List.mem_singleton] at hq
      subst hq
      simp [List.find?, hfgb]
  -- restore
  have hgd2 : get_dir_prop_row_id
      (⟨[⟨1, d⟩], [⟨1, 1, f, now1, cf, mf⟩, ⟨2, 1, g, now2, cg, mg⟩],
        [⟨1, 0, now1⟩, ⟨1, 0, now2⟩], 2, 3⟩ : Store) d =
      (1, ⟨[⟨1, d⟩], [⟨1, 1, f, now1, cf, mf⟩, ⟨2, 1, g, now2, cg, mg⟩],
        [⟨1, 0, now1⟩, ⟨1, 0, now2⟩], 2, 3⟩) := by
    rw [get_dir_prop_row_id]
    simp [List.find?, hd]
  have hlat2 : latestCachedDate
      (⟨[⟨1, d⟩], [⟨1, 1, f, now1, cf, mf⟩, ⟨2, 1, g, now2, cg, mg⟩],
        [⟨1, 0, now1⟩, ⟨1, 0, now2⟩], 2, 3⟩ : Store) 1 = some now2 := by
    rw [latestCachedDate, int_max?_eq_some_iff]
    constructor
    · simp [logMatches, LogActionType.toU8]
    · intro b hb
      simp [logMatches, LogActionType.toU8] at hb
      rcases hb with h1 | h1 <;> rw [h1]
      exact le_of_lt hlt
  have hneq : (now1 == now2) = false := beq_eq_false_iff_ne.mpr (ne_of_lt hlt)
  have hrec2 : recordsAt
      (⟨[⟨1, d⟩], [⟨1, 1, f, now1, cf, mf⟩, ⟨2, 1, g, now2, cg, mg⟩],
        [⟨1, 0, now1⟩, ⟨1, 0, now2⟩], 2, 3⟩ : Store) 1 now2 =
      [⟨2, 1, g, now2, cg, mg⟩] := by
    rw [recordsAt]
    simp [List.filter, hneq]
  have hgex : fsExists fs (d ++ [g]) = true := by simp [fsExists, hg]
  have hgisf : fsIsFile fs (d ++ [g]) = true := by simp [fsIsFile, hg]
  have happly : apply_dirs_props
      ⟨[⟨1, d⟩], [⟨1, 1, f, now1, cf, mf⟩, ⟨2, 1, g, now2, cg, mg⟩],
        [⟨1, 0, now1⟩, ⟨1, 0, now2⟩], 2, 3⟩ fs d =
      .ok (⟨[⟨1, d⟩], [⟨1, 1, f, now1, cf, mf⟩, ⟨2, 1, g, now2, cg, mg⟩],
          [⟨1, 0, now1⟩, ⟨1, 0, now2⟩], 2, 3⟩,
        fsSetModified fs (d ++ [g]) mg,
        [Ev.beginTx, Ev.queryLog, Ev.queryRecords, Ev.setModified (d ++ [g]),
         Ev.commitTx]) := by
    rw [apply_dirs_props]
    simp only [hex, Bool.not_true, Bool.false_eq_true, if_false]
    rw [hgd2]
    simp only
    rw [hlat2]
    simp only
    rw [hrec2]
    simp only [List.map_cons, List.map_nil]
    rw [applyFiles]
    simp only [hgex, hgisf, Bool.and_self, if_true]
    rfl
  have hne : (d ++ [f]) ≠ (d ++ [g]) := join_ne_of_name_ne d f g hfg
  refine ⟨_, _, _, _, hsave1, hsave2, happly, ?_, ?_, ?_⟩
  · exact fsGet_setModified_file fs (d ++ [g]) mg ⟨cg2, mg2⟩ hg
  · exact fsGet_setModified_ne fs (d ++ [g]) (d ++ [f]) mg hne
  · intro hmem
    simp at hmem
    exact hfg hmem

theorem stale_rows_excluded_from_restore_witness :
    ∃ s1 s2 fs2 tr,
      save_dirs_props initStore true (dirListing [("f", ⟨1, 2⟩)]) ["d"] 10 =
        .ok s1 ∧
      save_dirs_props s1 true (dirListing [("g", ⟨3, 4⟩)]) ["d"] 20 = .ok s2 ∧
      apply_dirs_props s2 [(["d"], Node.dir), (["d", "g"], Node.file ⟨5, 6⟩)]
        ["d"] = .ok (s2, fs2, tr) ∧
      fsGet fs2 (["d"] ++ ["g"]) = some (Node.file ⟨5, 4⟩) ∧
      fsGet fs2 (["d"] ++ ["f"]) =
        fsGet [(["d"], Node.dir), (["d", "g"], Node.file ⟨5, 6⟩)]
          (["d"] ++ ["f"]) ∧
      Ev.setModified (["d"] ++ ["f"]) ∉ tr :=
  stale_rows_excluded_from_restore ["d"] "f" "g" (by decide) 1 2 3 4 5 6 10 20
    (by decide) [(["d"], Node.dir), (["d", "g"], Node.file ⟨5, 6⟩)]
    (by decide) (by decide)
